import Mathlib

/-!
Verification of the answer-evaluation / spaced-repetition core and the
admin text-to-question parser of the quiz application (src/src/App.tsx).

Strings are embedded as lists of Unicode scalar values (`List Char`); the
JavaScript string operations used by the code (includes, trim, split,
replace-first, regex scans) are reproduced on that representation.
-/

/-! ### JavaScript string primitives -/

/-- Whitespace class of a JavaScript regular expression (the characters
matched by a backslash-s class and trimmed by String.prototype.trim). -/
def isJsSpace (c : Char) : Bool :=
  decide (c.toNat = 0x20 ∨ c.toNat = 0x09 ∨ c.toNat = 0x0A ∨ c.toNat = 0x0B ∨
    c.toNat = 0x0C ∨ c.toNat = 0x0D ∨ c.toNat = 0xA0 ∨ c.toNat = 0x1680 ∨
    (0x2000 ≤ c.toNat ∧ c.toNat ≤ 0x200A) ∨ c.toNat = 0x2028 ∨ c.toNat = 0x2029 ∨
    c.toNat = 0x202F ∨ c.toNat = 0x205F ∨ c.toNat = 0x3000 ∨ c.toNat = 0xFEFF)

/-- Uppercase Latin letter, the character class A-Z of the regexes. -/
def isUpperLatin (c : Char) : Bool :=
  decide (65 ≤ c.toNat ∧ c.toNat ≤ 90)

/-- Lowercase Latin letter. -/
def isLowerLatin (c : Char) : Bool :=
  decide (97 ≤ c.toNat ∧ c.toNat ≤ 122)

/-- Latin letter of either case: what the A-Z class matches under the
case-insensitive regex flag. -/
def isLatinLetter (c : Char) : Bool :=
  isUpperLatin c || isLowerLatin c

/-- ASCII digit, the character class 0-9. -/
def isDigit09 (c : Char) : Bool :=
  decide (48 ≤ c.toNat ∧ c.toNat ≤ 57)

/-- String.prototype.trim: drop JS whitespace from both ends. -/
def jsTrim (l : List Char) : List Char :=
  ((l.dropWhile isJsSpace).reverse.dropWhile isJsSpace).reverse

/-- String.prototype.includes: does the pattern occur as a contiguous
subsequence? -/
def jsIncludes (pat : List Char) : List Char → Bool
  | [] => pat.isEmpty
  | c :: cs => pat.isPrefixOf (c :: cs) || jsIncludes pat cs

/-- String.prototype.replace with a plain-string pattern: replace the first
occurrence of the pattern (the code only ever replaces by the empty
string, but the replacement is kept general). -/
def replaceFirst (pat repl : List Char) : List Char → List Char
  | [] => []
  | c :: cs =>
    if pat.isPrefixOf (c :: cs) then repl ++ (c :: cs).drop pat.length
    else c :: replaceFirst pat repl cs

/-! ### AnswerEvaluator (App.tsx lines 80-85)

The code stores choice letters as one-character strings; they are embedded
as characters. -/

/-- App.tsx line 80: spread of a Set (first-occurrence deduplication)
followed by the default sort. Auxiliary recursion carrying the set of
letters already seen. -/
def jsSetDedupAux (seen : List Char) : List Char → List Char
  | [] => []
  | x :: xs =>
    if x ∈ seen then jsSetDedupAux seen xs
    else x :: jsSetDedupAux (x :: seen) xs

/-- The JavaScript Set spread: keep the first occurrence of each letter, in
encounter order. -/
def jsSetDedup (arr : List Char) : List Char :=
  jsSetDedupAux [] arr

/-- App.tsx line 80: normalizeChoiceArray, deduplicate then sort ascending
(the default JS sort on one-character strings orders by code point). -/
def normalizeChoiceArray (arr : List Char) : List Char :=
  List.insertionSort (· ≤ ·) (jsSetDedup arr)

/-- App.tsx lines 81-85: isMultiCorrect, length check followed by an
index-by-index comparison. -/
def isMultiCorrect (chosen correct : List Char) : Bool :=
  if chosen.length ≠ correct.length then false
  else (chosen.zip correct).all fun p => p.1 == p.2

/-- App.tsx lines 301-303 (MultiSelectBlock.handleSubmit): the multi-select
evaluation normalizes both letter lists and compares them. -/
def evaluateMultiSelect (chosen correctAnswers : List Char) : Bool :=
  isMultiCorrect (normalizeChoiceArray chosen) (normalizeChoiceArray correctAnswers)

/-- Canonical form named by the specification: remove duplicate letters and
sort ascending by code point (stated independently of the code, via the
library deduplication and sort). -/
def specCanonical (l : List Char) : List Char :=
  List.insertionSort (· ≤ ·) l.dedup

/-! ### Spaced-repetition scheduler (App.tsx lines 203-205 and 462-463)

JavaScript Date arithmetic is embedded on civil (proleptic Gregorian)
dates; setDate with an argument exceeding the month length rolls over into
the following months, which is exactly day-by-day calendar succession from
the first of the month. -/

/-- A civil calendar date. -/
structure CivilDate where
  year : Nat
  month : Nat
  day : Nat
deriving DecidableEq

/-- Gregorian leap-year rule, as implemented by the JS Date object. -/
def isLeapYear (y : Nat) : Bool :=
  (y % 4 == 0 && y % 100 != 0) || y % 400 == 0

/-- Number of days of a month (months are 1-indexed here). -/
def daysInMonth (y m : Nat) : Nat :=
  if m = 2 then (if isLeapYear y then 29 else 28)
  else if m = 4 ∨ m = 6 ∨ m = 9 ∨ m = 11 then 30
  else 31

/-- The next civil day: the calendar successor, with month and year
rollover. -/
def nextDay (d : CivilDate) : CivilDate :=
  if d.day < daysInMonth d.year d.month then ⟨d.year, d.month, d.day + 1⟩
  else if d.month < 12 then ⟨d.year, d.month + 1, 1⟩
  else ⟨d.year + 1, 1, 1⟩

/-- Adding k calendar days: k-fold calendar succession. This is the
specification's notion of a date plus exactly k calendar days. -/
def addDays (d : CivilDate) : Nat → CivilDate
  | 0 => d
  | k + 1 => nextDay (addDays d k)

/-- JS Date.prototype.setDate for an argument of at least 1: the date whose
day-of-month is newDay counted with rollover, i.e. the first of the same
month advanced by newDay - 1 days. -/
def jsSetDate (t : CivilDate) (newDay : Nat) : CivilDate :=
  addDays ⟨t.year, t.month, 1⟩ (newDay - 1)

/-- App.tsx lines 204-205 and 462-463: nextReviewDate.setDate(getDate() +
(isCorrect ? 7 : 1)). -/
def computeNextReviewDate (t : CivilDate) (isCorrect : Bool) : CivilDate :=
  jsSetDate t (t.day + (if isCorrect then 7 else 1))

/-- A well-formed civil date: day within the month, month within the
year. -/
def validDate (d : CivilDate) : Bool :=
  decide (1 ≤ d.month) && decide (d.month ≤ 12) && decide (1 ≤ d.day) &&
    decide (d.day ≤ daysInMonth d.year d.month)

/-! ### Submit handlers (App.tsx lines 199-219, 299-315, 442-478)

Each handler is embedded as a function from the component state it reads
to the state it leaves behind, together with the history record it writes
(if any) and the validation message it surfaces (if any). -/

/-- The history record written on submission. -/
structure AnswerRecord where
  chosen : List Char
  isCorrect : Bool
  nextReviewDate : CivilDate
deriving DecidableEq

/-- Result of one submit action: the successor state, the record written
to the store and the validation message shown to the user. -/
structure SubmitOutcome (σ : Type) where
  state : σ
  record : Option AnswerRecord
  validationMessage : Option (List Char)

/-- State of SingleChoiceBlock read and written by checkAnswer. -/
structure SingleChoiceState where
  isSubmitted : Bool
  userAnswer : Option Char
deriving DecidableEq

/-- Validation message of SingleChoiceBlock.checkAnswer (line 200). -/
def msgChooseOne : List Char := "請選擇一個答案！".toList

/-- Validation message of SubQuestion.handleSubmit (line 444). -/
def msgChooseAnswer : List Char := "請選擇答案！".toList

/-- App.tsx lines 199-219: checkAnswer returns immediately (no state
change, no record) when no answer is selected; otherwise it marks the
question submitted and writes a record with the next review date. -/
def singleChoiceCheckAnswer (correctAnswer : Char) (now : CivilDate)
    (s : SingleChoiceState) : SubmitOutcome SingleChoiceState :=
  match s.userAnswer with
  | none => ⟨s, none, some msgChooseOne⟩
  | some a =>
    let isCorrect := a == correctAnswer
    ⟨⟨true, s.userAnswer⟩, some ⟨[a], isCorrect, computeNextReviewDate now isCorrect⟩, none⟩

/-- State of MultiSelectBlock read and written by handleSubmit. -/
structure MultiSelectState where
  chosen : List Char
  isSubmitted : Bool
  isCorrect : Option Bool
deriving DecidableEq

/-- App.tsx lines 299-315: MultiSelectBlock.handleSubmit evaluates the
(possibly empty) selection and transitions unconditionally; the history
write is commented out in the source, so no record is produced. -/
def multiSelectHandleSubmit (correctAnswers : List Char)
    (s : MultiSelectState) : SubmitOutcome MultiSelectState :=
  let ok := isMultiCorrect (normalizeChoiceArray s.chosen)
    (normalizeChoiceArray correctAnswers)
  ⟨⟨s.chosen, true, some ok⟩, none, none⟩

/-- Subtype tag of a reading sub-item. -/
inductive SubItemSubtype
  | single_choice
  | multi_select
deriving DecidableEq

/-- The fields of a reading sub-item consulted by handleSubmit; answer and
correctAnswers are optional in the source type. -/
structure ReadingSubItem where
  subtype : SubItemSubtype
  answer : Option Char
  correctAnswers : Option (List Char)

/-- State of SubQuestion read and written by handleSubmit. -/
structure SubQuestionState where
  chosen : List Char
  isCorrect : Option Bool
  localIsSubmitted : Bool
deriving DecidableEq

/-- App.tsx lines 442-478: SubQuestion.handleSubmit rejects an empty
selection, otherwise evaluates according to the subtype and writes a
history record. Comparison against a missing answer field is false, as in
JS. -/
def subQuestionHandleSubmit (item : ReadingSubItem) (now : CivilDate)
    (s : SubQuestionState) : SubmitOutcome SubQuestionState :=
  if s.chosen.length = 0 then ⟨s, none, some msgChooseAnswer⟩
  else
    let result :=
      match item.subtype with
      | .multi_select =>
        let u := normalizeChoiceArray s.chosen
        let c := normalizeChoiceArray (item.correctAnswers.getD [])
        (isMultiCorrect u c, u)
      | .single_choice =>
        let payload := s.chosen.headD ' '
        (match item.answer with
          | some a => payload == a
          | none => false, [payload])
    ⟨⟨s.chosen, some result.1, true⟩,
      some ⟨result.2, result.1, computeNextReviewDate now result.1⟩, none⟩

/-! ### QuestionTextParser (AdminModule.handleSubmit, App.tsx lines 694-763)

The handler throws typed errors for the four malformed-input conditions
and otherwise builds the question record; it is embedded as a function
into an Except. The DOM-based flattening of the pasted rich text to plain
text (lines 700-702) is abstracted as a parameter, the identity on
markup-free input. -/

/-- The four typed parse failures of the admin parser. -/
inductive ParseError
  | MissingAnswerMarker
  | MissingExplanationMarker
  | UnparsableAnswer
  | NoOptionMarkersFound
deriving DecidableEq

/-- The record inserted into the question collection on success (App.tsx
lines 746-754, minus the store-generated timestamp). -/
structure ParsedQuestion where
  title : List Char
  options : List (List Char)
  correctAnswer : Char
  explanation : List Char
  errorAnalysis : List (Char × List Char)
deriving DecidableEq

/-- Literal checked on the plain text for the answer marker (line 704). -/
def answerMarkerLit : List Char := "正確答案：".toList

/-- Literal checked on the plain text for the explanation marker (line
705), also stripped from the explanation segment (line 712). -/
def explanationMarkerLit : List Char := "詳解：".toList

/-- Label phrase stripped from the error-analysis block (line 734). -/
def errorAnalysisLabel : List Char := "錯因分析：".toList

/-- One attempt of the answer regex (line 715) at the current position: the
check-mark glyph, optional whitespace, the marker literal, optional
whitespace, then a Latin letter of either case (A-Z under the
case-insensitive flag). -/
def matchAnswerAt : List Char → Option Char
  | [] => none
  | c :: rest =>
    if c = '✅' then
      let r1 := rest.dropWhile isJsSpace
      if answerMarkerLit.isPrefixOf r1 then
        match (r1.drop answerMarkerLit.length).dropWhile isJsSpace with
        | [] => none
        | u :: _ => if isLatinLetter u then some u else none
      else none
    else none

/-- Leftmost match of the answer regex over the plain text (line 715). -/
def findAnswerLetter : List Char → Option Char
  | [] => none
  | c :: cs =>
    match matchAnswerAt (c :: cs) with
    | some u => some u
    | none => findAnswerLetter cs

/-- Length of the option-marker regex match at the current position (lines
720 and 729): an opening parenthesis, optional whitespace, an uppercase
letter, optional whitespace, a closing parenthesis. -/
def matchOptionLen (l : List Char) : Option Nat :=
  match l with
  | [] => none
  | c :: r =>
    if c = '(' then
      match r.dropWhile isJsSpace with
      | [] => none
      | u :: r2 =>
        if isUpperLatin u then
          match r2.dropWhile isJsSpace with
          | [] => none
          | v :: _ =>
            if v = ')' then
              some ((r.takeWhile isJsSpace).length + (r2.takeWhile isJsSpace).length + 3)
            else none
        else none
    else none

/-- String.prototype.search for the option-marker regex (line 720): the
character index of the leftmost match. -/
def findFirstOptionIdx : List Char → Option Nat
  | [] => none
  | c :: cs =>
    if (matchOptionLen (c :: cs)).isSome then some 0
    else (findFirstOptionIdx cs).map (· + 1)

/-- Fuelled scan for the split on the option-marker regex; the fuel is
instantiated with the length of the list, which bounds the number of
characters consumed. -/
def splitOptsGo : Nat → List Char → List (List Char)
  | _, [] => [[]]
  | 0, c :: cs => [c :: cs]
  | fuel + 1, c :: cs =>
    match matchOptionLen (c :: cs) with
    | some n => [] :: splitOptsGo fuel (cs.drop (n - 1))
    | none =>
      match splitOptsGo fuel cs with
      | [] => [[c]]
      | s :: ss => (c :: s) :: ss

/-- String.prototype.split on the option-marker regex (line 729). -/
def splitOnOptionMarkers (l : List Char) : List (List Char) :=
  splitOptsGo l.length l

/-- App.tsx line 729: split on every option marker, drop the segment
before the first marker, trim each remaining segment. -/
def optionSegments (l : List Char) : List (List Char) :=
  ((splitOnOptionMarkers l).drop 1).map jsTrim

/-- The anchored numbering-prefix regex of line 725: digits, a dot,
whitespace, then full-width parentheses whose whitespace content includes
an ideographic space. Returns the remainder after the prefix when it
matches. -/
def matchNumbering (cs : List Char) : Option (List Char) :=
  if (cs.takeWhile isDigit09).isEmpty then none
  else
    match cs.dropWhile isDigit09 with
    | [] => none
    | c :: r1 =>
      if c = '.' then
        match r1.dropWhile isJsSpace with
        | [] => none
        | d :: r2 =>
          if d = '（' then
            if '　' ∈ r2.takeWhile isJsSpace then
              match r2.dropWhile isJsSpace with
              | [] => none
              | e :: r3 => if e = '）' then some r3 else none
            else none
          else none
      else none

/-- App.tsx line 725: strip the leading numbering prefix if present. -/
def stripNumbering (cs : List Char) : List Char :=
  match matchNumbering cs with
  | some rest => rest
  | none => cs

/-- The colon class split on in the error-analysis lines (line 738):
ASCII or full-width colon. -/
def isColon (c : Char) : Bool := c == ':' || c == '：'

/-- JS object assignment: overwrite the binding if the key is present,
else append it (keys keep insertion order). -/
def recordSet (m : List (Char × List Char)) (k : Char) (v : List Char) :
    List (Char × List Char) :=
  if m.any (fun p => p.1 == k) then
    m.map (fun p => if p.1 == k then (k, v) else p)
  else m ++ [(k, v)]

/-- App.tsx lines 737-743: one iteration of the error-analysis line loop.
The line is split on the colon class; the entry is recorded only when the
split has exactly two parts and the trimmed, uppercased key is one of the
five letter strings. -/
def errorAnalysisLineStep (m : List (Char × List Char)) (line : List Char) :
    List (Char × List Char) :=
  let parts := line.splitOnP isColon
  let k := (jsTrim (parts.headD [])).map Char.toUpper
  if parts.length = 2 ∧ (k = ['A'] ∨ k = ['B'] ∨ k = ['C'] ∨ k = ['D'] ∨ k = ['E']) then
    recordSet m (k.headD 'A') (jsTrim (parts.getD 1 []))
  else m

/-- App.tsx lines 731-744: the error-analysis block parse; the empty block
(falsy JS string) is skipped entirely. -/
def parseErrorAnalysis (errorAnalysisHtml : List Char) : List (Char × List Char) :=
  if errorAnalysisHtml.isEmpty then []
  else
    ((jsTrim (replaceFirst errorAnalysisLabel [] errorAnalysisHtml)).splitOn '\n').foldl
      errorAnalysisLineStep []

/-- App.tsx lines 707-708: the segment of the pasted content before the
first error-analysis glyph. -/
def mainBlockHtml (pastedContent : List Char) : List Char :=
  (pastedContent.splitOn '🔍').headD []

/-- App.tsx line 709: the second segment of the split on the
error-analysis glyph (the empty string when there is no second segment). -/
def errorAnalysisBlockHtml (pastedContent : List Char) : List Char :=
  (pastedContent.splitOn '🔍').getD 1 []

/-- App.tsx line 712: the explanation field, from the second segment of
the split of the main block on the book glyph, with the literal stripped
and the ends trimmed. -/
def explanationField (pastedContent : List Char) : List Char :=
  jsTrim (replaceFirst explanationMarkerLit []
    (((mainBlockHtml pastedContent).splitOn '📖').getD 1 []))

/-- App.tsx line 713: the main block before the book glyph. -/
def contentBeforeExplanationHtml (pastedContent : List Char) : List Char :=
  ((mainBlockHtml pastedContent).splitOn '📖').headD []

/-- App.tsx line 719: the pre-explanation content before the check-mark
glyph, trimmed. -/
def contentBeforeAnswerHtml (pastedContent : List Char) : List Char :=
  jsTrim (((contentBeforeExplanationHtml pastedContent).splitOn '✅').headD [])

/-- AdminModule.handleSubmit, App.tsx lines 699-754: the full parser. -/
def parse (plainOf : List Char → List Char) (pastedContent : List Char) :
    Except ParseError ParsedQuestion :=
  let plainText := plainOf pastedContent
  if ¬ jsIncludes answerMarkerLit plainText then .error .MissingAnswerMarker
  else if ¬ jsIncludes explanationMarkerLit plainText then .error .MissingExplanationMarker
  else
    match findAnswerLetter plainText with
    | none => .error .UnparsableAnswer
    | some letter =>
      match findFirstOptionIdx (contentBeforeAnswerHtml pastedContent) with
      | none => .error .NoOptionMarkersFound
      | some idx =>
        .ok ⟨jsTrim (stripNumbering
            ((contentBeforeAnswerHtml pastedContent).take idx)),
          optionSegments ((contentBeforeAnswerHtml pastedContent).drop idx),
          letter.toUpper,
          explanationField pastedContent,
          parseErrorAnalysis (errorAnalysisBlockHtml pastedContent)⟩

/-! ### Characterization of the single-character splits -/

/-- Everything strictly before the first occurrence of a character. -/
def beforeFirst (a : Char) (l : List Char) : List Char :=
  l.takeWhile (fun c => c != a)

/-- Everything strictly after the first occurrence of a character (the
empty list when the character does not occur). -/
def afterFirst (a : Char) (l : List Char) : List Char :=
  (l.dropWhile (fun c => c != a)).drop 1

/-! ### The options block under assembled inputs -/

/-- A minimal option marker: an uppercase letter between ASCII
parentheses. -/
def optionMarker (c : Char) : List Char := ['(', c, ')']

/-- A well-formed options block: a marker followed by a segment, repeated;
the letter of each marker is recorded together with its segment. -/
def assembleOptionsBlock : List (Char × List Char) → List Char
  | [] => []
  | (c, t) :: rest => optionMarker c ++ t ++ assembleOptionsBlock rest

/-! ### Observation helpers and concrete inputs -/

/-- The record produced by a parse, if any. -/
def questionRecordOf : Except ParseError ParsedQuestion → Option ParsedQuestion
  | .ok q => some q
  | .error _ => none

/-- The errorAnalysis mapping of a successful parse, if any. -/
def errorAnalysisOf (r : Except ParseError ParsedQuestion) :
    Option (List (Char × List Char)) :=
  (questionRecordOf r).map ParsedQuestion.errorAnalysis

/-- A well-formed input whose answer letter lies beyond its single
option. -/
def c3CounterInput : List Char := "題目 (A) 甲 ✅ 正確答案：C 📖 詳解：x".toList

/-- An input with no marker at all. -/
def c5NoAnswerInput : List Char := "hello".toList

/-- An input with the answer marker but no explanation marker. -/
def c5NoExplanationInput : List Char := "正確答案：B 沒有其他標記".toList

/-- An input whose error-analysis section itself contains a second
occurrence of the error-analysis glyph. -/
def c6Input : List Char :=
  "題 (A) x ✅ 正確答案：A 📖 詳解：e🔍 錯因分析：\nA：嗯\n🔍\nB：呀".toList

/-- A well-formed input without the error-analysis glyph. -/
def c6WitnessInput : List Char := "題 (A) x ✅ 正確答案：A 📖 詳解：e".toList

/-- The specification's error-analysis example: one well-formed line and
one malformed line. -/
def c7Input : List Char :=
  "題 (A) x ✅ 正確答案：A 📖 詳解：e🔍 錯因分析：\nA：寫錯原因\nnot a letter line".toList

/-- The round-trip example block of the specification. -/
def c8Input : List Char :=
  "測試題目\n(A) 選項甲 (B) 選項乙 (C) 選項丙\n✅ 正確答案：B\n📖 詳解：因為...".toList

/-! ### Specification-side variants -/

/-- Parser variant reading the C6 sentence literally: the error-analysis
block is everything after the FIRST occurrence of the marker glyph
(instead of the segment up to the second occurrence); identical to parse
in every other respect. -/
def parseSpecSplitAfterFirst (plainOf : List Char → List Char)
    (pastedContent : List Char) : Except ParseError ParsedQuestion :=
  let plainText := plainOf pastedContent
  let mainBlock := beforeFirst '🔍' pastedContent
  let errorBlock := afterFirst '🔍' pastedContent
  let explanationParts := mainBlock.splitOn '📖'
  let explanation := jsTrim (replaceFirst explanationMarkerLit []
    (explanationParts.getD 1 []))
  let contentBeforeAnswer := jsTrim (((explanationParts.headD []).splitOn
    '✅').headD [])
  if ¬ jsIncludes answerMarkerLit plainText then .error .MissingAnswerMarker
  else if ¬ jsIncludes explanationMarkerLit plainText then
    .error .MissingExplanationMarker
  else
    match findAnswerLetter plainText with
    | none => .error .UnparsableAnswer
    | some letter =>
      match findFirstOptionIdx contentBeforeAnswer with
      | none => .error .NoOptionMarkersFound
      | some idx =>
        .ok ⟨jsTrim (stripNumbering (contentBeforeAnswer.take idx)),
          optionSegments (contentBeforeAnswer.drop idx), letter.toUpper,
          explanation, parseErrorAnalysis errorBlock⟩

/-- The error-analysis line shape as the specification sentence reads:
split on a colon into a key and a value; the trimmed, uppercased key must
be one of the recognized letters A-E (code points 65 to 69). -/
def specLineEntry (line : List Char) : Option (Char × List Char) :=
  match line.splitOnP isColon with
  | [k, v] =>
    match (jsTrim k).map Char.toUpper with
    | [c] => if 65 ≤ c.toNat ∧ c.toNat ≤ 69 then some (c, jsTrim v) else none
    | _ => none
  | _ => none

/-- The mapping the specification describes: entries exactly from the
lines whose shape matches, later lines overwriting earlier ones. -/
def specErrorAnalysisOfLines (lines : List (List Char)) :
    List (Char × List Char) :=
  lines.foldl (fun m line =>
    match specLineEntry line with
    | some kv => recordSet m kv.1 kv.2
    | none => m) []

/-! ### Lemmas -/

/-! ### Lemmas for the evaluator -/

lemma isMultiCorrect_cons (x y : Char) (xs ys : List Char) :
    isMultiCorrect (x :: xs) (y :: ys) = ((x == y) && isMultiCorrect xs ys) := by
  unfold isMultiCorrect
  by_cases hl : xs.length = ys.length
  · rw [if_neg (by simp only [List.length_cons, ne_eq]; omega),
      if_neg (by simpa using hl)]
    simp [List.zip_cons_cons]
  · rw [if_pos (by simp only [List.length_cons, ne_eq]; omega),
      if_pos hl, Bool.and_false]

lemma isMultiCorrect_eq_true_iff :
    ∀ a b : List Char, isMultiCorrect a b = true ↔ a = b := by
  intro a
  induction a with
  | nil =>
    intro b
    cases b with
    | nil => simp [isMultiCorrect]
    | cons y ys =>
      unfold isMultiCorrect
      rw [if_pos (by simp only [List.length_nil, List.length_cons, ne_eq]; omega)]
      simp
  | cons x xs ih =>
    intro b
    cases b with
    | nil =>
      unfold isMultiCorrect
      rw [if_pos (by simp only [List.length_nil, List.length_cons, ne_eq]; omega)]
      simp
    | cons y ys =>
      rw [isMultiCorrect_cons]
      simp [ih ys]

lemma mem_jsSetDedupAux (seen l : List Char) (a : Char) :
    a ∈ jsSetDedupAux seen l ↔ a ∈ l ∧ a ∉ seen := by
  induction l generalizing seen with
  | nil => simp [jsSetDedupAux]
  | cons x xs ih =>
    unfold jsSetDedupAux
    by_cases hx : x ∈ seen
    · rw [if_pos hx, ih]
      constructor
      · rintro ⟨h1, h2⟩
        exact ⟨List.mem_cons_of_mem _ h1, h2⟩
      · rintro ⟨h1, h2⟩
        rcases List.mem_cons.mp h1 with h | h
        · subst h; exact absurd hx h2
        · exact ⟨h, h2⟩
    · rw [if_neg hx, List.mem_cons, ih]
      constructor
      · rintro (rfl | ⟨h1, h2⟩)
        · exact ⟨List.mem_cons_self _ _, hx⟩
        · exact ⟨List.mem_cons_of_mem _ h1,
            fun hs => h2 (List.mem_cons_of_mem _ hs)⟩
      · rintro ⟨h1, h2⟩
        rcases List.mem_cons.mp h1 with h | h
        · exact Or.inl h
        · by_cases hax : a = x
          · exact Or.inl hax
          · refine Or.inr ⟨h, fun hs => ?_⟩
            rcases List.mem_cons.mp hs with h3 | h3
            · exact hax h3
            · exact h2 h3

lemma nodup_jsSetDedupAux (seen l : List Char) :
    (jsSetDedupAux seen l).Nodup := by
  induction l generalizing seen with
  | nil => simp [jsSetDedupAux]
  | cons x xs ih =>
    unfold jsSetDedupAux
    by_cases hx : x ∈ seen
    · rw [if_pos hx]; exact ih seen
    · rw [if_neg hx]
      refine List.nodup_cons.mpr ⟨?_, ih (x :: seen)⟩
      intro hmem
      exact ((mem_jsSetDedupAux _ _ _).mp hmem).2 (List.mem_cons_self _ _)

lemma jsSetDedup_perm_dedup (l : List Char) : List.Perm (jsSetDedup l) l.dedup := by
  unfold jsSetDedup
  rw [List.perm_ext_iff_of_nodup (nodup_jsSetDedupAux [] l) l.nodup_dedup]
  intro a
  rw [mem_jsSetDedupAux, List.mem_dedup]
  simp

lemma normalizeChoiceArray_eq_specCanonical (l : List Char) :
    normalizeChoiceArray l = specCanonical l := by
  unfold normalizeChoiceArray specCanonical
  refine List.eq_of_perm_of_sorted ?_ (List.sorted_insertionSort _ _)
    (List.sorted_insertionSort _ _)
  exact (List.perm_insertionSort _ _).trans
    ((jsSetDedup_perm_dedup l).trans (List.perm_insertionSort _ _).symm)

/-! ### Lemmas for the scheduler -/

lemma addDays_add (d : CivilDate) (a b : Nat) :
    addDays d (a + b) = addDays (addDays d a) b := by
  induction b with
  | zero => rfl
  | succ n ih => rw [Nat.add_succ]; simp [addDays, ih]

lemma addDays_first (y m j : Nat) (h : j + 1 ≤ daysInMonth y m) :
    addDays ⟨y, m, 1⟩ j = ⟨y, m, j + 1⟩ := by
  induction j with
  | zero => rfl
  | succ n ih =>
    have h' : n + 1 ≤ daysInMonth y m := by omega
    rw [addDays, ih h']
    show nextDay ⟨y, m, n + 1⟩ = ⟨y, m, n + 2⟩
    unfold nextDay
    simp only
    rw [if_pos (by omega : n + 1 < daysInMonth y m)]

lemma jsSetDate_day_add (t : CivilDate) (k : Nat)
    (hd : 1 ≤ t.day) (hdim : t.day ≤ daysInMonth t.year t.month) :
    jsSetDate t (t.day + k) = addDays t k := by
  rcases t with ⟨y, m, d⟩
  simp only at hd hdim
  unfold jsSetDate
  simp only
  have h1 : d + k - 1 = (d - 1) + k := by omega
  rw [h1, addDays_add, addDays_first y m (d - 1) (by omega),
    (by omega : d - 1 + 1 = d)]

/-! ### Character lemmas -/

lemma char_eq_of_toNat_eq {c d : Char} (h : c.toNat = d.toNat) : c = d :=
  Char.eq_of_val_eq (UInt32.ext h)

lemma char_mem_AE {c : Char} (h1 : 65 ≤ c.toNat) (h2 : c.toNat ≤ 69) :
    c = 'A' ∨ c = 'B' ∨ c = 'C' ∨ c = 'D' ∨ c = 'E' := by
  have h : c.toNat = 65 ∨ c.toNat = 66 ∨ c.toNat = 67 ∨ c.toNat = 68 ∨
      c.toNat = 69 := by omega
  rcases h with h | h | h | h | h
  · exact Or.inl (char_eq_of_toNat_eq h)
  · exact Or.inr (Or.inl (char_eq_of_toNat_eq h))
  · exact Or.inr (Or.inr (Or.inl (char_eq_of_toNat_eq h)))
  · exact Or.inr (Or.inr (Or.inr (Or.inl (char_eq_of_toNat_eq h))))
  · exact Or.inr (Or.inr (Or.inr (Or.inr (char_eq_of_toNat_eq h))))

lemma toNat_charOfNat_of_valid (n : Nat) (h : n < 55296) :
    (Char.ofNat n).toNat = n := by
  unfold Char.ofNat
  rw [dif_pos (Or.inl h)]
  rfl

lemma isUpperLatin_toUpper {u : Char} (h : isLatinLetter u = true) :
    isUpperLatin u.toUpper = true := by
  simp only [isLatinLetter, Bool.or_eq_true, isUpperLatin, isLowerLatin,
    decide_eq_true_eq] at h
  simp only [Char.toUpper, ge_iff_le]
  split_ifs with hc
  · simp only [isUpperLatin, decide_eq_true_eq]
    rw [toNat_charOfNat_of_valid _ (by omega)]
    omega
  · simp only [isUpperLatin, decide_eq_true_eq]
    rcases h with h | h
    · exact h
    · omega

lemma isJsSpace_eq_false_of_upper {u : Char} (hu : isUpperLatin u = true) :
    isJsSpace u = false := by
  simp only [isUpperLatin, decide_eq_true_eq] at hu
  simp only [isJsSpace, decide_eq_false_iff_not]
  omega

/-! ### Lemmas about the answer-letter scan -/

lemma matchAnswerAt_isLatin (l : List Char) (u : Char)
    (h : matchAnswerAt l = some u) : isLatinLetter u = true := by
  cases l with
  | nil => exact absurd h (by simp [matchAnswerAt])
  | cons c rest =>
    simp only [matchAnswerAt] at h
    by_cases h1 : c = '✅'
    · rw [if_pos h1] at h
      by_cases h2 : answerMarkerLit.isPrefixOf (rest.dropWhile isJsSpace) = true
      · rw [if_pos h2] at h
        revert h
        cases ((rest.dropWhile isJsSpace).drop answerMarkerLit.length).dropWhile
            isJsSpace with
        | nil => intro h; exact absurd h (by simp)
        | cons v r =>
          intro h
          have h' : (if isLatinLetter v = true then some v else none) = some u := h
          by_cases h3 : isLatinLetter v = true
          · rw [if_pos h3] at h'
            cases h'
            exact h3
          · rw [if_neg h3] at h'
            exact absurd h' (by simp)
      · rw [if_neg h2] at h
        exact absurd h (by simp)
    · rw [if_neg h1] at h
      exact absurd h (by simp)

lemma findAnswerLetter_isLatin :
    ∀ (l : List Char) (u : Char), findAnswerLetter l = some u →
      isLatinLetter u = true := by
  intro l
  induction l with
  | nil => intro u h; exact absurd h (by simp [findAnswerLetter])
  | cons c cs ih =>
    intro u h
    unfold findAnswerLetter at h
    revert h
    cases hm : matchAnswerAt (c :: cs) with
    | some v =>
      intro h
      cases h
      exact matchAnswerAt_isLatin _ _ hm
    | none =>
      intro h
      exact ih u h

/-! ### Lemmas about the option-marker scan and split -/

lemma matchOptionLen_none_of_ne {c : Char} (hc : c ≠ '(') (cs : List Char) :
    matchOptionLen (c :: cs) = none := by
  simp [matchOptionLen, hc]

lemma matchOptionLen_marker (u : Char) (hu : isUpperLatin u = true)
    (l : List Char) : matchOptionLen ('(' :: u :: ')' :: l) = some 3 := by
  have hs := isJsSpace_eq_false_of_upper hu
  simp [matchOptionLen, List.dropWhile_cons, List.takeWhile_cons, hs, hu,
    (by decide : isJsSpace ')' = false)]

lemma findFirstOptionIdx_match :
    ∀ (l : List Char) (idx : Nat), findFirstOptionIdx l = some idx →
      (matchOptionLen (l.drop idx)).isSome = true := by
  intro l
  induction l with
  | nil => intro idx h; exact absurd h (by simp [findFirstOptionIdx])
  | cons c cs ih =>
    intro idx h
    unfold findFirstOptionIdx at h
    by_cases hm : (matchOptionLen (c :: cs)).isSome = true
    · rw [if_pos hm] at h
      cases h
      simpa using hm
    · rw [if_neg hm] at h
      revert h
      cases hfind : findFirstOptionIdx cs with
      | none => intro h; exact absurd h (by simp)
      | some j =>
        intro h
        simp only [Option.map_some'] at h
        cases h
        simpa using ih j hfind

lemma splitOptsGo_ne_nil : ∀ (fuel : Nat) (l : List Char),
    splitOptsGo fuel l ≠ [] := by
  intro fuel
  induction fuel with
  | zero =>
    intro l
    cases l with
    | nil => simp [splitOptsGo]
    | cons c cs => simp [splitOptsGo]
  | succ g ih =>
    intro l
    cases l with
    | nil => simp [splitOptsGo]
    | cons c cs =>
      unfold splitOptsGo
      cases hm : matchOptionLen (c :: cs) with
      | some n => simp
      | none =>
        revert ih
        cases hs : splitOptsGo g cs with
        | nil => intro ih; exact absurd hs (ih cs)
        | cons s ss => intro _; simp

lemma splitOptsGo_fuel :
    ∀ (f1 : Nat) (l : List Char) (f2 : Nat), l.length ≤ f1 → l.length ≤ f2 →
      splitOptsGo f1 l = splitOptsGo f2 l := by
  intro f1
  induction f1 with
  | zero =>
    intro l f2 h1 h2
    cases l with
    | nil => cases f2 <;> rfl
    | cons c cs => simp at h1
  | succ g ih =>
    intro l f2 h1 h2
    cases l with
    | nil => cases f2 <;> rfl
    | cons c cs =>
      cases f2 with
      | zero => simp at h2
      | succ f =>
        show splitOptsGo (g + 1) (c :: cs) = splitOptsGo (f + 1) (c :: cs)
        unfold splitOptsGo
        simp only [List.length_cons] at h1 h2
        cases hm : matchOptionLen (c :: cs) with
        | some n =>
          show [] :: splitOptsGo g (cs.drop (n - 1)) =
            [] :: splitOptsGo f (cs.drop (n - 1))
          rw [ih (cs.drop (n - 1)) f (by simp [List.length_drop]; omega)
            (by simp [List.length_drop]; omega)]
        | none =>
          show (match splitOptsGo g cs with
              | [] => [[c]]
              | s :: ss => (c :: s) :: ss) =
            (match splitOptsGo f cs with
              | [] => [[c]]
              | s :: ss => (c :: s) :: ss)
          rw [ih cs f (by omega) (by omega)]

lemma splitOn_headD (a : Char) :
    ∀ l : List Char, (l.splitOn a).headD [] = beforeFirst a l := by
  intro l
  induction l with
  | nil => rfl
  | cons x xs ih =>
    simp only [List.splitOn] at ih ⊢
    rw [List.splitOnP_cons]
    by_cases hx : x = a
    · rw [if_pos (by simp [hx])]
      simp [beforeFirst, List.takeWhile_cons, hx]
    · rw [if_neg (by simp [hx])]
      cases hsp : xs.splitOnP (fun c => c == a) with
      | nil => exact absurd hsp (List.splitOnP_ne_nil _ _)
      | cons s ss =>
        rw [hsp] at ih
        simp only [List.headD_cons] at ih
        show x :: s = beforeFirst a (x :: xs)
        unfold beforeFirst
        rw [List.takeWhile_cons, if_pos (by simp [hx])]
        exact congrArg (x :: ·) ih

lemma splitOn_getD_one (a : Char) :
    ∀ l : List Char, (l.splitOn a).getD 1 [] = beforeFirst a (afterFirst a l) := by
  intro l
  induction l with
  | nil => rfl
  | cons x xs ih =>
    simp only [List.splitOn] at ih ⊢
    rw [List.splitOnP_cons]
    by_cases hx : x = a
    · rw [if_pos (by simp [hx])]
      have hhead := splitOn_headD a xs
      simp only [List.splitOn] at hhead
      have harg : afterFirst a (x :: xs) = xs := by
        simp [afterFirst, List.dropWhile_cons, hx]
      have hgd : ∀ S : List (List Char), ([] :: S).getD 1 [] = S.headD [] := by
        intro S; cases S <;> rfl
      rw [harg, hgd]
      exact hhead
    · rw [if_neg (by simp [hx])]
      have harg : afterFirst a (x :: xs) = afterFirst a xs := by
        simp [afterFirst, List.dropWhile_cons, hx]
      rw [harg, ← ih]
      cases hsp : xs.splitOnP (fun c => c == a) with
      | nil => exact absurd hsp (List.splitOnP_ne_nil _ _)
      | cons s ss => rfl

lemma afterFirst_of_not_mem {a : Char} {l : List Char} (h : a ∉ l) :
    afterFirst a l = [] := by
  unfold afterFirst
  rw [List.dropWhile_eq_nil_iff.mpr]
  · rfl
  · intro x hx
    simp only [bne_iff_ne, ne_eq]
    intro hxa
    exact h (hxa ▸ hx)

lemma splitOnOptionMarkers_marker (u : Char) (hu : isUpperLatin u = true)
    (l : List Char) :
    splitOnOptionMarkers (optionMarker u ++ l) = [] :: splitOnOptionMarkers l := by
  have key : splitOptsGo ((l.length + 2) + 1) ('(' :: u :: ')' :: l) =
      [] :: splitOptsGo (l.length + 2) l := by
    simp only [splitOptsGo]
    rw [matchOptionLen_marker u hu]
    rfl
  have hfuel := splitOptsGo_fuel (l.length + 2) l l.length (by omega) (le_refl _)
  show splitOptsGo ('(' :: u :: ')' :: l).length ('(' :: u :: ')' :: l) =
    [] :: splitOptsGo l.length l
  have hlen : ('(' :: u :: ')' :: l).length = (l.length + 2) + 1 := by
    simp only [List.length_cons]
  rw [hlen, key, hfuel]

lemma splitOnOptionMarkers_skip :
    ∀ (t l : List Char), '(' ∉ t →
      splitOnOptionMarkers (t ++ l) =
        (t ++ (splitOnOptionMarkers l).headD []) :: (splitOnOptionMarkers l).tail := by
  intro t
  induction t with
  | nil =>
    intro l _
    cases hsp : splitOnOptionMarkers l with
    | nil => exact absurd hsp (splitOptsGo_ne_nil _ _)
    | cons s ss => simp [hsp]
  | cons c t' ih =>
    intro l hmem
    have hc : c ≠ '(' := fun h => hmem (h ▸ List.mem_cons_self _ _)
    have hmem' : '(' ∉ t' := fun h => hmem (List.mem_cons_of_mem _ h)
    show splitOptsGo (c :: (t' ++ l)).length (c :: (t' ++ l)) = _
    rw [show (c :: (t' ++ l)).length = (t' ++ l).length + 1 from rfl]
    unfold splitOptsGo
    rw [matchOptionLen_none_of_ne hc]
    show (match splitOptsGo (t' ++ l).length (t' ++ l) with
        | [] => [[c]]
        | s :: ss => (c :: s) :: ss) = _
    rw [show splitOptsGo (t' ++ l).length (t' ++ l) =
      splitOnOptionMarkers (t' ++ l) from rfl, ih l hmem']
    simp

lemma splitOnOptionMarkers_assembled :
    ∀ items : List (Char × List Char),
      (∀ p ∈ items, isUpperLatin p.1 = true ∧ '(' ∉ p.2) →
      splitOnOptionMarkers (assembleOptionsBlock items) =
        [] :: items.map (fun p => p.2) := by
  intro items
  induction items with
  | nil => intro _; rfl
  | cons ut rest ih =>
    intro hyp
    obtain ⟨u, t⟩ := ut
    have hu : isUpperLatin u = true := (hyp (u, t) (List.mem_cons_self _ _)).1
    have ht : '(' ∉ t := (hyp (u, t) (List.mem_cons_self _ _)).2
    have hrest := ih (fun p hp => hyp p (List.mem_cons_of_mem _ hp))
    show splitOnOptionMarkers (optionMarker u ++ (t ++ assembleOptionsBlock rest)) = _
    rw [splitOnOptionMarkers_marker u hu, splitOnOptionMarkers_skip t _ ht, hrest]
    simp

lemma findFirstOptionIdx_assembled :
    ∀ (pre : List Char) (items : List (Char × List Char)), '(' ∉ pre →
      items ≠ [] → (∀ p ∈ items, isUpperLatin p.1 = true) →
      findFirstOptionIdx (pre ++ assembleOptionsBlock items) = some pre.length := by
  intro pre
  induction pre with
  | nil =>
    intro items hpre hne hup
    cases items with
    | nil => exact absurd rfl hne
    | cons ut rest =>
      obtain ⟨u, t⟩ := ut
      have hu := hup (u, t) (List.mem_cons_self _ _)
      show findFirstOptionIdx ('(' :: u :: ')' :: (t ++ assembleOptionsBlock rest)) = some 0
      unfold findFirstOptionIdx
      rw [if_pos (by rw [matchOptionLen_marker u hu]; rfl)]
  | cons c pre' ih =>
    intro items hpre hne hup
    have hc : c ≠ '(' := fun h => hpre (h ▸ List.mem_cons_self _ _)
    have hpre' : '(' ∉ pre' := fun h => hpre (List.mem_cons_of_mem _ h)
    show findFirstOptionIdx (c :: (pre' ++ assembleOptionsBlock items)) = _
    unfold findFirstOptionIdx
    rw [if_neg (by rw [matchOptionLen_none_of_ne hc]; simp),
      ih items hpre' hne hup]
    rfl

lemma optionSegments_ne_nil (l : List Char)
    (h : (matchOptionLen l).isSome = true) : optionSegments l ≠ [] := by
  cases l with
  | nil => simp [matchOptionLen] at h
  | cons c cs =>
    revert h
    cases hm : matchOptionLen (c :: cs) with
    | none => intro h; simp at h
    | some n =>
      intro _
      unfold optionSegments splitOnOptionMarkers
      have hstep : splitOptsGo (c :: cs).length (c :: cs) =
          [] :: splitOptsGo cs.length (cs.drop (n - 1)) := by
        rw [show (c :: cs).length = cs.length + 1 from rfl]
        simp only [splitOptsGo]
        rw [hm]
      rw [hstep]
      intro hcontra
      simp only [List.drop_one, List.tail_cons] at hcontra
      exact splitOptsGo_ne_nil _ _ (by
        cases hsp : splitOptsGo cs.length (cs.drop (n - 1)) with
        | nil => rfl
        | cons s ss => rw [hsp] at hcontra; simp at hcontra)

lemma parse_ok_shape (plainOf : List Char → List Char) (input : List Char)
    (q : ParsedQuestion) (h : parse plainOf input = Except.ok q) :
    ∃ letter idx,
      findAnswerLetter (plainOf input) = some letter ∧
      findFirstOptionIdx (contentBeforeAnswerHtml input) = some idx ∧
      q = ⟨jsTrim (stripNumbering ((contentBeforeAnswerHtml input).take idx)),
        optionSegments ((contentBeforeAnswerHtml input).drop idx),
        letter.toUpper, explanationField input,
        parseErrorAnalysis (errorAnalysisBlockHtml input)⟩ := by
  simp only [parse] at h
  by_cases h1 : jsIncludes answerMarkerLit (plainOf input) = true
  · rw [if_neg (not_not_intro h1)] at h
    by_cases h2 : jsIncludes explanationMarkerLit (plainOf input) = true
    · rw [if_neg (not_not_intro h2)] at h
      revert h
      cases hfa : findAnswerLetter (plainOf input) with
      | none => intro h; exact absurd h (by simp)
      | some letter =>
        cases hfi : findFirstOptionIdx (contentBeforeAnswerHtml input) with
        | none => intro h; exact absurd h (by simp)
        | some idx =>
          intro h
          exact ⟨letter, idx, rfl, rfl, (Except.ok.inj h).symm⟩
    · rw [if_pos h2] at h
      exact absurd h (by simp)
  · rw [if_pos h1] at h
    exact absurd h (by simp)

lemma errorAnalysisLineStep_eq (m : List (Char × List Char)) (line : List Char) :
    errorAnalysisLineStep m line =
      match specLineEntry line with
      | some kv => recordSet m kv.1 kv.2
      | none => m := by
  unfold errorAnalysisLineStep specLineEntry
  cases hp : line.splitOnP isColon with
  | nil => simp
  | cons k rest =>
    cases rest with
    | nil => simp
    | cons v rest2 =>
      cases rest2 with
      | cons w rest3 => simp
      | nil =>
        simp only [List.headD_cons, List.length_cons, List.length_nil]
        cases hK : (jsTrim k).map Char.toUpper with
        | nil => simp
        | cons c cr =>
          cases cr with
          | cons c2 cr2 => simp
          | nil =>
            by_cases hc : 65 ≤ c.toNat ∧ c.toNat ≤ 69
            · rcases char_mem_AE hc.1 hc.2 with h | h | h | h | h <;>
                subst h <;> simp [hc]
            · simp only [hc, if_false]
              simp [hc]
              intro h
              rcases h with h | h | h | h | h <;> subst h <;>
                exact absurd (by decide) hc

/-! ### Claim theorems -/

/-! ### C1 and C2 -/

/-- C1: the multi-select evaluation returns true exactly when the two
letter lists, after removing duplicates and sorting ascending by code
point, are identical element-for-element; in particular it returns false
whenever the canonical forms differ in length. -/
theorem evaluateMultiSelect_canonical (chosen correct : List Char) :
    (evaluateMultiSelect chosen correct = true ↔
      specCanonical chosen = specCanonical correct) ∧
    ((specCanonical chosen).length ≠ (specCanonical correct).length →
      evaluateMultiSelect chosen correct = false) := by
  have key : evaluateMultiSelect chosen correct = true ↔
      specCanonical chosen = specCanonical correct := by
    rw [evaluateMultiSelect, normalizeChoiceArray_eq_specCanonical,
      normalizeChoiceArray_eq_specCanonical, isMultiCorrect_eq_true_iff]
  refine ⟨key, fun hlen => ?_⟩
  cases h : evaluateMultiSelect chosen correct with
  | false => rfl
  | true => exact absurd (congrArg List.length (key.mp h)) hlen

/-- Witness: a chosen set that is a strict subset of the correct set
evaluates to false. -/
theorem evaluateMultiSelect_canonical_witness :
    evaluateMultiSelect ['A'] ['A', 'B'] = false :=
  (evaluateMultiSelect_canonical ['A'] ['A', 'B']).2 (by decide)

/-- C2: for every valid submission date, a correct submission is scheduled
exactly 7 calendar days later and an incorrect one exactly 1 calendar day
later, with month rollover as in the Jan 28 examples. -/
theorem computeNextReviewDate_correct (t : CivilDate) (h : validDate t = true) :
    computeNextReviewDate t true = addDays t 7 ∧
    computeNextReviewDate t false = addDays t 1 ∧
    computeNextReviewDate ⟨2026, 1, 28⟩ false = ⟨2026, 1, 29⟩ ∧
    computeNextReviewDate ⟨2026, 1, 28⟩ true = ⟨2026, 2, 4⟩ := by
  simp only [validDate, Bool.and_eq_true, decide_eq_true_eq] at h
  obtain ⟨⟨⟨hm1, hm2⟩, hd1⟩, hd2⟩ := h
  refine ⟨?_, ?_, by decide, by decide⟩
  · rw [computeNextReviewDate, if_pos rfl]
    exact jsSetDate_day_add t 7 hd1 hd2
  · rw [computeNextReviewDate]
    simp only [Bool.false_eq_true, if_false]
    exact jsSetDate_day_add t 1 hd1 hd2

/-- Witness: the scheduler applied on 2026-01-28. -/
theorem computeNextReviewDate_correct_witness :
    computeNextReviewDate ⟨2026, 1, 28⟩ true = addDays ⟨2026, 1, 28⟩ 7 ∧
    computeNextReviewDate ⟨2026, 1, 28⟩ false = addDays ⟨2026, 1, 28⟩ 1 := by
  have h := computeNextReviewDate_correct ⟨2026, 1, 28⟩ (by decide)
  exact ⟨h.1, h.2.1⟩

/-! ### C4 -/

/-- C4 counterexample: the multi-select handler, submitted with zero
choices selected, does transition to the submitted state (with the empty
selection evaluated as an answer), contradicting the claim that every
question type rejects an empty submission. -/
theorem multiSelect_empty_submit_transitions :
    (multiSelectHandleSubmit ['A'] ⟨[], false, none⟩).state.isSubmitted = true ∧
    (multiSelectHandleSubmit ['A'] ⟨[], false, none⟩).state.isCorrect = some false := by
  constructor
  · rfl
  · decide

/-- C4 amended: the single-choice and reading sub-item handlers reject an
empty submission (state unchanged, no record, a validation message), but
the multi-select handler performs no such check: it transitions to
submitted with the empty selection evaluated, and writes no record. -/
theorem empty_submit_policy (c : Char) (now : CivilDate)
    (s1 : SingleChoiceState) (item : ReadingSubItem) (s2 : SubQuestionState)
    (correct : List Char) (s3 : MultiSelectState)
    (h1 : s1.userAnswer = none) (h2 : s2.chosen = []) (h3 : s3.chosen = []) :
    singleChoiceCheckAnswer c now s1 = ⟨s1, none, some msgChooseOne⟩ ∧
    subQuestionHandleSubmit item now s2 = ⟨s2, none, some msgChooseAnswer⟩ ∧
    (multiSelectHandleSubmit correct s3).state.isSubmitted = true ∧
    (multiSelectHandleSubmit correct s3).record = none ∧
    (multiSelectHandleSubmit correct s3).state.isCorrect =
      some (isMultiCorrect [] (normalizeChoiceArray correct)) := by
  refine ⟨?_, ?_, rfl, rfl, ?_⟩
  · rw [singleChoiceCheckAnswer, h1]
  · rw [subQuestionHandleSubmit, h2]
    simp
  · simp [multiSelectHandleSubmit, h3, normalizeChoiceArray, jsSetDedup,
      jsSetDedupAux]

/-- Witness for the amended C4 statement at concrete states. -/
theorem empty_submit_policy_witness :
    singleChoiceCheckAnswer 'A' ⟨2026, 1, 28⟩ ⟨false, none⟩ =
      ⟨⟨false, none⟩, none, some msgChooseOne⟩ ∧
    subQuestionHandleSubmit ⟨.single_choice, some 'A', none⟩ ⟨2026, 1, 28⟩
        ⟨[], none, false⟩ = ⟨⟨[], none, false⟩, none, some msgChooseAnswer⟩ ∧
    (multiSelectHandleSubmit ['A'] ⟨[], false, none⟩).state.isSubmitted = true ∧
    (multiSelectHandleSubmit ['A'] ⟨[], false, none⟩).record = none ∧
    (multiSelectHandleSubmit ['A'] ⟨[], false, none⟩).state.isCorrect =
      some (isMultiCorrect [] (normalizeChoiceArray ['A'])) :=
  empty_submit_policy 'A' ⟨2026, 1, 28⟩ ⟨false, none⟩
    ⟨.single_choice, some 'A', none⟩ ⟨[], none, false⟩ ['A'] ⟨[], false, none⟩
    rfl rfl rfl

/-! ### C3 -/

/-- C3 counterexample: on a well-formed input with one option and the
answer letter C, the parse succeeds with a record whose correctAnswer does
not index into its options. -/
theorem parse_answer_outside_options :
    (questionRecordOf (parse id c3CounterInput)).map
      (fun q => (q.options.length, q.correctAnswer)) = some (1, 'C') ∧
    ¬ ('C'.toNat - 'A'.toNat < 1) := by
  constructor
  · rfl
  · decide

/-- C3 amended: on every successful parse the options are non-empty and
the correctAnswer is an uppercase Latin letter, but it need not index into
the options; a failed parse returns a bare typed error and no record. -/
theorem parse_ok_invariants (plainOf : List Char → List Char)
    (input : List Char) (q : ParsedQuestion)
    (h : parse plainOf input = Except.ok q) :
    q.options ≠ [] ∧ isUpperLatin q.correctAnswer = true := by
  obtain ⟨letter, idx, hfa, hfi, rfl⟩ := parse_ok_shape plainOf input q h
  constructor
  · exact optionSegments_ne_nil _ (findFirstOptionIdx_match _ idx hfi)
  · exact isUpperLatin_toUpper (findAnswerLetter_isLatin _ letter hfa)

/-- Witness for the amended C3 statement at the concrete input. -/
theorem parse_ok_invariants_witness :
    (["甲".toList] : List (List Char)) ≠ [] ∧ isUpperLatin 'C' = true :=
  parse_ok_invariants id c3CounterInput
    ⟨"題目".toList, ["甲".toList], 'C', "x".toList, []⟩ rfl

/-! ### C5 -/

/-- C5: the two marker preconditions are checked first and in order: a
plain text without the answer-marker literal yields
MissingAnswerMarker regardless of anything else, and one with the answer
marker but without the explanation-marker literal yields
MissingExplanationMarker; an error carries no record. -/
theorem parse_marker_preconditions (plainOf : List Char → List Char)
    (input : List Char) :
    (jsIncludes answerMarkerLit (plainOf input) = false →
      parse plainOf input = Except.error ParseError.MissingAnswerMarker) ∧
    (jsIncludes answerMarkerLit (plainOf input) = true →
      jsIncludes explanationMarkerLit (plainOf input) = false →
      parse plainOf input = Except.error ParseError.MissingExplanationMarker) := by
  constructor
  · intro h
    simp only [parse]
    rw [if_pos (by simp [h])]
  · intro h1 h2
    simp only [parse]
    rw [if_neg (not_not_intro h1), if_pos (by simp [h2])]

/-- Witness for C5 at two concrete inputs. -/
theorem parse_marker_preconditions_witness :
    parse id c5NoAnswerInput = Except.error ParseError.MissingAnswerMarker ∧
    parse id c5NoExplanationInput =
      Except.error ParseError.MissingExplanationMarker :=
  ⟨(parse_marker_preconditions id c5NoAnswerInput).1 (by decide),
    (parse_marker_preconditions id c5NoExplanationInput).2 (by decide)
      (by decide)⟩

/-! ### C6 -/

/-- C6 counterexample: with a second occurrence of the glyph inside the
error-analysis section, the code records only the lines between the first
and second occurrences, while the everything-after-the-first reading of
the claim would also record the B line. -/
theorem parse_errorBlock_counterexample :
    errorAnalysisOf (parse id c6Input) = some [('A', "嗯".toList)] ∧
    errorAnalysisOf (parseSpecSplitAfterFirst id c6Input) =
      some [('A', "嗯".toList), ('B', "呀".toList)] := by
  constructor
  · rfl
  · rfl

/-- C6 amended: the main block is everything before the first glyph, the
error-analysis block is the segment strictly between the first and the
second occurrence (everything after the first when it occurs once); the
absence of the glyph is not an error and leaves errorAnalysis empty. -/
theorem parse_errorBlock_segments (plainOf : List Char → List Char)
    (input : List Char) :
    mainBlockHtml input = beforeFirst '🔍' input ∧
    errorAnalysisBlockHtml input = beforeFirst '🔍' (afterFirst '🔍' input) ∧
    ('🔍' ∉ input → ∀ q, parse plainOf input = Except.ok q →
      q.errorAnalysis = []) := by
  refine ⟨splitOn_headD '🔍' input, splitOn_getD_one '🔍' input, ?_⟩
  intro hmem q hq
  obtain ⟨letter, idx, _, _, rfl⟩ := parse_ok_shape plainOf input q hq
  show parseErrorAnalysis (errorAnalysisBlockHtml input) = []
  have hblk : errorAnalysisBlockHtml input = [] := by
    rw [show errorAnalysisBlockHtml input =
        beforeFirst '🔍' (afterFirst '🔍' input) from splitOn_getD_one '🔍' input,
      afterFirst_of_not_mem hmem]
    rfl
  rw [hblk]
  rfl

/-- Witness for the amended C6 statement at a concrete glyph-free input. -/
theorem parse_errorBlock_segments_witness :
    mainBlockHtml c6WitnessInput = beforeFirst '🔍' c6WitnessInput ∧
    (⟨"題".toList, ["x".toList], 'A', "e".toList, []⟩ :
      ParsedQuestion).errorAnalysis = [] :=
  ⟨(parse_errorBlock_segments id c6WitnessInput).1,
    (parse_errorBlock_segments id c6WitnessInput).2.2 (by decide)
      ⟨"題".toList, ["x".toList], 'A', "e".toList, []⟩ rfl⟩

/-! ### C7 -/

/-- C7: each error-analysis line contributes an entry exactly when it
splits on a colon into a key and a value with a trimmed, uppercased key
among A-E, other lines being silently skipped; on the specification's
example block the parse records exactly the well-formed line. -/
theorem errorAnalysis_line_shape :
    (∀ lines : List (List Char),
      lines.foldl errorAnalysisLineStep [] = specErrorAnalysisOfLines lines) ∧
    errorAnalysisOf (parse id c7Input) = some [('A', "寫錯原因".toList)] := by
  constructor
  · intro lines
    unfold specErrorAnalysisOfLines
    suffices h : ∀ init : List (Char × List Char),
        lines.foldl errorAnalysisLineStep init =
          lines.foldl (fun m line =>
            match specLineEntry line with
            | some kv => recordSet m kv.1 kv.2
            | none => m) init from h []
    intro init
    induction lines generalizing init with
    | nil => rfl
    | cons a as ih =>
      simp only [List.foldl_cons, errorAnalysisLineStep_eq]
      exact ih _
  · rfl

/-! ### C8 -/

/-- C8: the round-trip example parses to exactly the expected record:
three options, correctAnswer B, the explanation text, and an empty
errorAnalysis. -/
theorem parse_roundtrip_example :
    parse id c8Input = Except.ok ⟨"測試題目".toList,
      ["選項甲".toList, "選項乙".toList, "選項丙".toList], 'B',
      "因為...".toList, []⟩ := rfl

/-! ### C9 -/

/-- C9: the parser is a pure function of its input: two invocations on
identical inputs return structurally identical results. -/
theorem parse_deterministic (plainOf : List Char → List Char)
    (input1 input2 : List Char) (h : input1 = input2) :
    parse plainOf input1 = parse plainOf input2 := by rw [h]

/-- Witness for C9 on a concrete input. -/
theorem parse_deterministic_witness :
    parse id c8Input = parse id c8Input :=
  parse_deterministic id c8Input c8Input rfl

/-! ### C10 -/

/-- C10: for a title part followed by any sequence of parenthesized
uppercase marker letters with marker-free segments, the first marker
position is right after the title part, and the extracted options are the
trimmed segments in textual order; the conclusion does not depend on which
letters appear in the markers, so segment i is assigned letter i
regardless of the written letters. -/
theorem optionSegments_ignore_marker_letters (pre : List Char)
    (items : List (Char × List Char)) (hpre : '(' ∉ pre) (hne : items ≠ [])
    (hitems : ∀ p ∈ items, isUpperLatin p.1 = true ∧ '(' ∉ p.2) :
    findFirstOptionIdx (pre ++ assembleOptionsBlock items) = some pre.length ∧
    optionSegments ((pre ++ assembleOptionsBlock items).drop pre.length) =
      items.map (fun p => jsTrim p.2) := by
  constructor
  · exact findFirstOptionIdx_assembled pre items hpre hne
      (fun p hp => (hitems p hp).1)
  · rw [List.drop_left]
    unfold optionSegments
    rw [splitOnOptionMarkers_assembled items hitems]
    simp [List.map_map]

/-- Witness for C10: markers reading (D) then (B) still yield the two
segments in order, i.e. positions A and B. -/
theorem optionSegments_ignore_marker_letters_witness :
    findFirstOptionIdx ("題 ".toList ++
      assembleOptionsBlock [('D', " 甲".toList), ('B', " 乙".toList)]) = some 2 ∧
    optionSegments (("題 ".toList ++
        assembleOptionsBlock [('D', " 甲".toList), ('B', " 乙".toList)]).drop 2) =
      ["甲".toList, "乙".toList] :=
  optionSegments_ignore_marker_letters "題 ".toList
    [('D', " 甲".toList), ('B', " 乙".toList)] (by decide) (by decide) (by decide)
